import Mathlib

/-!
# Verification of the `mrc` crate's metadata codec and data-block layer

Shallow embedding of the Rust sources:

* `src/src/header.rs` — the 1024-byte `Header` record, its `validate`,
  `data_size`, `exttyp`/`nversion` accessors and the byte-exact
  `decode_from_bytes` / `encode_to_bytes` codec;
* `src/src/mode.rs` — the `Mode` registry;
* `src/src/view.rs` — `MrcView::new` / `MrcViewMut::new` construction checks;
* `src/src/lib.rs` — `FileEndian`, `DataBlock` / `DataBlockMut` typed access,
  `Packed4Bit`, and the error type.

Modelling conventions:

* `u8` bytes are `Nat` values; byte buffers are `List Nat` (all values
  produced by the embedded encoders are `< 256`).
* `i32` fields are `Int` (their mathematical value); serialisation goes
  through two's complement at width 32 exactly as `to_le_bytes` /
  `from_le_bytes` do.
* `f32` fields are represented by their 32-bit patterns as `Nat` values:
  the embedded code never performs floating-point arithmetic on them, it
  only moves their four bytes, so the bit pattern is the whole state.
* `usize` arithmetic wraps at `2 ^ 64` (release-build semantics), written
  with explicit `% 18446744073709551616`.
* Fallible Rust functions return `Except Error`; a Rust slice-index panic
  is modelled by `Option.none` around the result where a genuinely
  unguarded index exists.
-/

namespace Mrc

deriving instance DecidableEq for Except

/-- `FileEndian` from `src/src/lib.rs`: byte order of the on-disk data. -/
inductive FileEndian where
  | littleEndian
  | bigEndian
deriving DecidableEq, Repr

/-- `Error` from `src/src/lib.rs` (the `mmap`-feature variant omitted,
feature not enabled in the embedded core). -/
inductive Error where
  | io
  | invalidHeader
  | invalidMode
  | invalidDimensions
  | typeMismatch
deriving DecidableEq, Repr

/-- `FileEndian::from_machst`: `0x44 0x44` ⇒ little, `0x11 0x11` ⇒ big,
anything else defaults to little.  Only the first two bytes are examined. -/
def FileEndian.fromMachst (m : List Nat) : FileEndian :=
  if m.getD 0 0 = 0x44 ∧ m.getD 1 0 = 0x44 then .littleEndian
  else if m.getD 0 0 = 0x11 ∧ m.getD 1 0 = 0x11 then .bigEndian
  else .littleEndian

/-- `FileEndian::to_machst`. -/
def FileEndian.toMachst : FileEndian → List Nat
  | .littleEndian => [0x44, 0x44, 0x00, 0x00]
  | .bigEndian => [0x11, 0x11, 0x00, 0x00]

/-- `Mode` from `src/src/mode.rs`. -/
inductive Mode where
  | int8
  | int16
  | float32
  | int16Complex
  | float32Complex
  | uint16
  | float16
  | packed4Bit
deriving DecidableEq, Repr

/-- `Mode::from_i32`. -/
def Mode.fromI32 (mode : Int) : Option Mode :=
  if mode = 0 then some .int8
  else if mode = 1 then some .int16
  else if mode = 2 then some .float32
  else if mode = 3 then some .int16Complex
  else if mode = 4 then some .float32Complex
  else if mode = 6 then some .uint16
  else if mode = 12 then some .float16
  else if mode = 101 then some .packed4Bit
  else none

/-- `Mode::byte_size`. -/
def Mode.byteSize : Mode → Nat
  | .int8 => 1
  | .int16 => 2
  | .float32 => 4
  | .int16Complex => 4
  | .float32Complex => 8
  | .uint16 => 2
  | .float16 => 2
  | .packed4Bit => 1

/-- `Mode::is_complex`. -/
def Mode.isComplex : Mode → Bool
  | .int16Complex => true
  | .float32Complex => true
  | _ => false

/-! ## Byte-level serialisation primitives

These embed `to_le_bytes` / `from_le_bytes` (and the `_be_` variants) for
32-bit quantities, the only multi-byte widths the header codec uses. -/

/-- Byte `k` (0-based) of the 32-bit word `n`, in the given byte order:
little-endian stores the least significant byte first. -/
def encWordByte (e : FileEndian) (n k : Nat) : Nat :=
  match e with
  | .littleEndian => n % 4294967296 / 256 ^ k % 256
  | .bigEndian => n % 4294967296 / 256 ^ (3 - k) % 256

/-- Reassemble a 32-bit word from four bytes in the given byte order
(`u32::from_le_bytes` / `from_be_bytes` on byte values `< 256`). -/
def decodeWord (e : FileEndian) (b0 b1 b2 b3 : Nat) : Nat :=
  match e with
  | .littleEndian => b0 + 256 * b1 + 65536 * b2 + 16777216 * b3
  | .bigEndian => b3 + 256 * b2 + 65536 * b1 + 16777216 * b0

/-- Two's-complement bit pattern of an `i32` (`x.to_le_bytes` viewed as a
32-bit word). -/
def i32Bits (x : Int) : Nat := (x % 4294967296).toNat

/-- Interpret a 32-bit word as an `i32` value (`i32::from_le_bytes`). -/
def toI32 (n : Nat) : Int :=
  if n < 2147483648 then (n : Int) else (n : Int) - 4294967296

/-- Byte `k` of the serialisation of the `i32` value `x`. -/
def encI32Byte (e : FileEndian) (x : Int) (k : Nat) : Nat :=
  encWordByte e (i32Bits x) k

/-- `i32` to `usize` cast (`as usize`): sign extension to 64 bits. -/
def usizeOfI32 (x : Int) : Nat := (x % 18446744073709551616).toNat


/-! ## The `Header` record (`src/src/header.rs`)

`i32` fields are `Int`; `f32` fields (`xlen` … `rms`, `origin`) are 32-bit
patterns as `Nat`; the byte arrays `extra` (100), `origin` (3 words),
`map` (4), `machst` (4) and `label` (800) are lists. -/
@[ext]
structure Header where
  nx : Int
  ny : Int
  nz : Int
  mode : Int
  nxstart : Int
  nystart : Int
  nzstart : Int
  mx : Int
  my : Int
  mz : Int
  xlen : Nat
  ylen : Nat
  zlen : Nat
  alpha : Nat
  beta : Nat
  gamma : Nat
  mapc : Int
  mapr : Int
  maps : Int
  dmin : Nat
  dmax : Nat
  dmean : Nat
  ispg : Int
  nsymbt : Int
  extra : List Nat
  origin : List Nat
  map : List Nat
  machst : List Nat
  rms : Nat
  nlabl : Int
  label : List Nat
deriving DecidableEq, Repr

namespace Header

/-- `Header::new`: the default header.  Float fields carry the bit pattern
of the source's constants: `1.0 = 0x3F800000`, `90.0 = 0x42B40000`,
`+inf = 0x7F800000`, `-inf = 0xFF800000`, `-1.0 = 0xBF800000`. -/
def new : Header where
  nx := 0
  ny := 0
  nz := 0
  mode := 2
  nxstart := 0
  nystart := 0
  nzstart := 0
  mx := 0
  my := 0
  mz := 0
  xlen := 0x3F800000
  ylen := 0x3F800000
  zlen := 0x3F800000
  alpha := 0x42B40000
  beta := 0x42B40000
  gamma := 0x42B40000
  mapc := 1
  mapr := 2
  maps := 3
  dmin := 0x7F800000
  dmax := 0xFF800000
  dmean := 0xFF800000
  ispg := 1
  nsymbt := 0
  extra := List.replicate 12 0 ++ [0xAD, 0x4E, 0x00, 0x00] ++ List.replicate 84 0
  origin := [0, 0, 0]
  map := [0x4D, 0x41, 0x50, 0x20]
  machst := [0x44, 0x44, 0x00, 0x00]
  rms := 0xBF800000
  nlabl := 0
  label := List.replicate 800 0

/-- `Header::default` (`impl Default` delegates to `Header::new`). -/
def default : Header := new

/-- `Header::data_offset`. -/
def data_offset (h : Header) : Nat :=
  (1024 + usizeOfI32 h.nsymbt) % 18446744073709551616

/-- `Header::data_size`: `usize` products wrap at `2 ^ 64`. -/
def data_size (h : Header) : Nat :=
  let n := usizeOfI32 h.nx * usizeOfI32 h.ny % 18446744073709551616
    * usizeOfI32 h.nz % 18446744073709551616
  let bytesPerPixel : Nat :=
    if h.mode = 0 then 1
    else if h.mode = 1 then 2
    else if h.mode = 2 then 4
    else if h.mode = 3 then 4
    else if h.mode = 4 then 8
    else if h.mode = 6 then 2
    else if h.mode = 12 then 2
    else if h.mode = 101 then 1
    else 0
  n * bytesPerPixel % 18446744073709551616

/-- `Header::validate`: positive dimensions, registered mode and the
`"MAP "` signature; nothing else is checked. -/
def validate (h : Header) : Bool :=
  0 < h.nx ∧ 0 < h.ny ∧ 0 < h.nz
    ∧ (h.mode = 0 ∨ h.mode = 1 ∨ h.mode = 2 ∨ h.mode = 3 ∨ h.mode = 4
        ∨ h.mode = 6 ∨ h.mode = 12 ∨ h.mode = 101)
    ∧ h.map = [0x4D, 0x41, 0x50, 0x20]

/-- `Header::detect_endian`. -/
def detect_endian (h : Header) : FileEndian :=
  FileEndian.fromMachst h.machst

/-- `Header::exttyp`: reads `extra[8..12]` with `i32::from_le_bytes` —
unconditionally little-endian. -/
def exttyp (h : Header) : Int :=
  toI32 (decodeWord .littleEndian (h.extra.getD 8 0) (h.extra.getD 9 0)
    (h.extra.getD 10 0) (h.extra.getD 11 0))

/-- `Header::set_exttyp`: stores `value.to_le_bytes()` into `extra[8..12]` —
unconditionally little-endian. -/
def set_exttyp (h : Header) (value : Int) : Header :=
  { h with extra := h.extra.take 8
      ++ [encI32Byte .littleEndian value 0, encI32Byte .littleEndian value 1,
          encI32Byte .littleEndian value 2, encI32Byte .littleEndian value 3]
      ++ h.extra.drop 12 }

/-- `Header::nversion`: reads `extra[12..16]` in the byte order named by
the machine stamp. -/
def nversion (h : Header) : Int :=
  toI32 (decodeWord h.detect_endian (h.extra.getD 12 0) (h.extra.getD 13 0)
    (h.extra.getD 14 0) (h.extra.getD 15 0))

/-- `Header::set_nversion`: stores the value into `extra[12..16]` in the
byte order named by the machine stamp. -/
def set_nversion (h : Header) (value : Int) : Header :=
  { h with extra := h.extra.take 12
      ++ [encI32Byte h.detect_endian value 0, encI32Byte h.detect_endian value 1,
          encI32Byte h.detect_endian value 2, encI32Byte h.detect_endian value 3]
      ++ h.extra.drop 16 }

/-- `Header::encode_to_bytes`, expressed as the byte the encoder places at
offset `i`: each field is written at its fixed offset in the byte order
named by the machine stamp; `extra`, `map`, `machst` and `label` are
copied verbatim. -/
def encodeByte (h : Header) (i : Nat) : Nat :=
  let e := FileEndian.fromMachst h.machst
  if i < 4 then encI32Byte e h.nx i
  else if i < 8 then encI32Byte e h.ny (i - 4)
  else if i < 12 then encI32Byte e h.nz (i - 8)
  else if i < 16 then encI32Byte e h.mode (i - 12)
  else if i < 20 then encI32Byte e h.nxstart (i - 16)
  else if i < 24 then encI32Byte e h.nystart (i - 20)
  else if i < 28 then encI32Byte e h.nzstart (i - 24)
  else if i < 32 then encI32Byte e h.mx (i - 28)
  else if i < 36 then encI32Byte e h.my (i - 32)
  else if i < 40 then encI32Byte e h.mz (i - 36)
  else if i < 44 then encWordByte e h.xlen (i - 40)
  else if i < 48 then encWordByte e h.ylen (i - 44)
  else if i < 52 then encWordByte e h.zlen (i - 48)
  else if i < 56 then encWordByte e h.alpha (i - 52)
  else if i < 60 then encWordByte e h.beta (i - 56)
  else if i < 64 then encWordByte e h.gamma (i - 60)
  else if i < 68 then encI32Byte e h.mapc (i - 64)
  else if i < 72 then encI32Byte e h.mapr (i - 68)
  else if i < 76 then encI32Byte e h.maps (i - 72)
  else if i < 80 then encWordByte e h.dmin (i - 76)
  else if i < 84 then encWordByte e h.dmax (i - 80)
  else if i < 88 then encWordByte e h.dmean (i - 84)
  else if i < 92 then encI32Byte e h.ispg (i - 88)
  else if i < 96 then encI32Byte e h.nsymbt (i - 92)
  else if i < 196 then h.extra.getD (i - 96) 0
  else if i < 200 then encWordByte e (h.origin.getD 0 0) (i - 196)
  else if i < 204 then encWordByte e (h.origin.getD 1 0) (i - 200)
  else if i < 208 then encWordByte e (h.origin.getD 2 0) (i - 204)
  else if i < 212 then h.map.getD (i - 208) 0
  else if i < 216 then h.machst.getD (i - 212) 0
  else if i < 220 then encWordByte e h.rms (i - 216)
  else if i < 224 then encI32Byte e h.nlabl (i - 220)
  else if i < 1024 then h.label.getD (i - 224) 0
  else 0

/-- `Header::encode_to_bytes`: the full 1024-byte buffer. -/
def encode_to_bytes (h : Header) : List Nat :=
  List.ofFn fun i : Fin 1024 => encodeByte h i.val

/-- `Header::decode_from_bytes`: detect the byte order from the machine
stamp at offsets 212–215, then read every field at its fixed offset;
`extra`, `map`, `machst` and `label` are copied verbatim. -/
def decode_from_bytes (bytes : List Nat) : Header :=
  let e := FileEndian.fromMachst
    [bytes.getD 212 0, bytes.getD 213 0, bytes.getD 214 0, bytes.getD 215 0]
  let dI := fun o : Nat => toI32 (decodeWord e (bytes.getD o 0)
    (bytes.getD (o + 1) 0) (bytes.getD (o + 2) 0) (bytes.getD (o + 3) 0))
  let dW := fun o : Nat => decodeWord e (bytes.getD o 0)
    (bytes.getD (o + 1) 0) (bytes.getD (o + 2) 0) (bytes.getD (o + 3) 0)
  { nx := dI 0
    ny := dI 4
    nz := dI 8
    mode := dI 12
    nxstart := dI 16
    nystart := dI 20
    nzstart := dI 24
    mx := dI 28
    my := dI 32
    mz := dI 36
    xlen := dW 40
    ylen := dW 44
    zlen := dW 48
    alpha := dW 52
    beta := dW 56
    gamma := dW 60
    mapc := dI 64
    mapr := dI 68
    maps := dI 72
    dmin := dW 76
    dmax := dW 80
    dmean := dW 84
    ispg := dI 88
    nsymbt := dI 92
    extra := List.ofFn fun k : Fin 100 => bytes.getD (96 + k.val) 0
    origin := [dW 196, dW 200, dW 204]
    map := [bytes.getD 208 0, bytes.getD 209 0, bytes.getD 210 0, bytes.getD 211 0]
    machst := [bytes.getD 212 0, bytes.getD 213 0, bytes.getD 214 0, bytes.getD 215 0]
    rms := dW 216
    nlabl := dI 220
    label := List.ofFn fun k : Fin 800 => bytes.getD (224 + k.val) 0 }

/-- In-range constraints that the Rust field types impose: every `i32`
field holds an `i32` value, every `f32` pattern fits in 32 bits, and the
fixed-size byte arrays have their declared lengths. -/
def WF (h : Header) : Prop :=
  -2147483648 ≤ h.nx ∧ h.nx < 2147483648
    ∧ -2147483648 ≤ h.ny ∧ h.ny < 2147483648
    ∧ -2147483648 ≤ h.nz ∧ h.nz < 2147483648
    ∧ -2147483648 ≤ h.mode ∧ h.mode < 2147483648
    ∧ -2147483648 ≤ h.nxstart ∧ h.nxstart < 2147483648
    ∧ -2147483648 ≤ h.nystart ∧ h.nystart < 2147483648
    ∧ -2147483648 ≤ h.nzstart ∧ h.nzstart < 2147483648
    ∧ -2147483648 ≤ h.mx ∧ h.mx < 2147483648
    ∧ -2147483648 ≤ h.my ∧ h.my < 2147483648
    ∧ -2147483648 ≤ h.mz ∧ h.mz < 2147483648
    ∧ h.xlen < 4294967296 ∧ h.ylen < 4294967296 ∧ h.zlen < 4294967296
    ∧ h.alpha < 4294967296 ∧ h.beta < 4294967296 ∧ h.gamma < 4294967296
    ∧ -2147483648 ≤ h.mapc ∧ h.mapc < 2147483648
    ∧ -2147483648 ≤ h.mapr ∧ h.mapr < 2147483648
    ∧ -2147483648 ≤ h.maps ∧ h.maps < 2147483648
    ∧ h.dmin < 4294967296 ∧ h.dmax < 4294967296 ∧ h.dmean < 4294967296
    ∧ -2147483648 ≤ h.ispg ∧ h.ispg < 2147483648
    ∧ -2147483648 ≤ h.nsymbt ∧ h.nsymbt < 2147483648
    ∧ h.extra.length = 100
    ∧ h.origin.length = 3
    ∧ (∀ x ∈ h.origin, x < 4294967296)
    ∧ h.map.length = 4
    ∧ h.machst.length = 4
    ∧ h.rms < 4294967296
    ∧ -2147483648 ≤ h.nlabl ∧ h.nlabl < 2147483648
    ∧ h.label.length = 800

instance (h : Header) : Decidable h.WF := by
  unfold WF
  infer_instance

end Header

/-! ## 16-bit serialisation primitives (for `i16` data access) -/

/-- Reassemble a 16-bit word from two bytes in the given byte order. -/
def decodeHalfWord (e : FileEndian) (b0 b1 : Nat) : Nat :=
  match e with
  | .littleEndian => b0 + 256 * b1
  | .bigEndian => b1 + 256 * b0

/-- Interpret a 16-bit word as an `i16` value (`i16::from_le_bytes`). -/
def toI16 (n : Nat) : Int :=
  if n < 32768 then (n : Int) else (n : Int) - 65536

/-- Byte `k` (0 or 1) of the serialisation of the `i16` value `x`. -/
def encI16Byte (e : FileEndian) (x : Int) (k : Nat) : Nat :=
  match e with
  | .littleEndian => (x % 65536).toNat / 256 ^ k % 256
  | .bigEndian => (x % 65536).toNat / 256 ^ (1 - k) % 256

/-! ## View construction (`src/src/view.rs`)

`MrcView::new` / `MrcViewMut::new` take the header and one combined
buffer, validate the header, require the buffer to hold **at least**
`nsymbt + data_size` bytes (a wrapping `usize` sum), then call
`data.split_at(ext_header_size)`.  `split_at` panics when its argument
exceeds the buffer length — reachable when the sum wraps, e.g. with
`nsymbt = -1` (which `validate` does not reject) the extension size is
`2^64 - 1` while the wrapped total is tiny, so the length guard passes
and `split_at` panics; that panic is modelled as `none`.  Both
constructors perform the identical checks (one on a shared, one on an
exclusive borrow), so both are embedded with the same shape. -/

/-- `MrcView::new`: returns the `(ext_header, data)` split on success;
`none` models the `split_at` panic of view.rs:34. -/
def MrcView.new (header : Header) (data : List Nat) :
    Option (Except Error (List Nat × List Nat)) :=
  if header.validate = false then some (.error .invalidHeader)
  else
    let extHeaderSize := usizeOfI32 header.nsymbt
    let totalExpected :=
      (extHeaderSize + header.data_size) % 18446744073709551616
    if data.length < totalExpected then some (.error .invalidDimensions)
    else if extHeaderSize ≤ data.length then
      some (.ok (data.take extHeaderSize, data.drop extHeaderSize))
    else none

/-- `MrcViewMut::new`: identical validation and split on a mutable
buffer; `none` models the `split_at_mut` panic of view.rs:357. -/
def MrcViewMut.new (header : Header) (data : List Nat) :
    Option (Except Error (List Nat × List Nat)) :=
  if header.validate = false then some (.error .invalidHeader)
  else
    let extHeaderSize := usizeOfI32 header.nsymbt
    let totalExpected :=
      (extHeaderSize + header.data_size) % 18446744073709551616
    if data.length < totalExpected then some (.error .invalidDimensions)
    else if extHeaderSize ≤ data.length then
      some (.ok (data.take extHeaderSize, data.drop extHeaderSize))
    else none

/-! ## Packed 4-bit values (`src/src/lib.rs`, mode 101) -/

/-- `Packed4Bit`: two 4-bit values; `first`/`second` are the source's
accessors over `values[0]` / `values[1]`. -/
structure Packed4Bit where
  first : Nat
  second : Nat
deriving DecidableEq, Repr

/-- `Packed4Bit::decode` (endianness-independent): low nibble first,
high nibble second. -/
def Packed4Bit.decode (byte : Nat) : Packed4Bit :=
  { first := byte % 16, second := byte / 16 % 16 }

/-- `Packed4Bit::encode` (endianness-independent):
`values[0] | (values[1] << 4)` on `u8`. -/
def Packed4Bit.encode (p : Packed4Bit) : Nat :=
  p.first ||| p.second * 16 % 256

/-! ## Data blocks (`src/src/lib.rs`)

`DataBlock` and `DataBlockMut` wrap the same four components (the
mutable variant merely holds an exclusive borrow), so a single structure
carries both; the mutating operations live in the `DataBlockMut`
namespace and return the updated byte buffer. -/

structure DataBlock where
  bytes : List Nat
  mode : Mode
  fileEndian : FileEndian
  voxelCount : Nat
deriving DecidableEq, Repr

namespace DataBlock

/-- Helper `decode_f32` from `src/src/lib.rs`: the 32-bit pattern at a
byte offset, assembled in file byte order. -/
def decodeF32At (bytes : List Nat) (offset : Nat) (e : FileEndian) : Nat :=
  decodeWord e (bytes.getD offset 0) (bytes.getD (offset + 1) 0)
    (bytes.getD (offset + 2) 0) (bytes.getD (offset + 3) 0)

/-- Helper `decode_i16` from `src/src/lib.rs`. -/
def decodeI16At (bytes : List Nat) (offset : Nat) (e : FileEndian) : Int :=
  toI16 (decodeHalfWord e (bytes.getD offset 0) (bytes.getD (offset + 1) 0))

/-- `DataBlock::get_f32`: mode check, then the bounds check
`offset + 4 > len` where `offset = index * 4` and the sum are wrapping
`usize` arithmetic (mod `2^64`); on success the four byte reads
`bytes[offset] … bytes[offset+3]` run with the **unwrapped** offset, so
when the wrapped check passed spuriously (offset near `2^64`) the first
slice index panics — modelled `none`.  (A Rust slice never exceeds
`isize::MAX` bytes, so for in-range offsets the per-byte index sums
cannot themselves wrap.) -/
def get_f32 (b : DataBlock) (index : Nat) : Option (Except Error Nat) :=
  if b.mode ≠ .float32 then some (.error .invalidMode)
  else
    let offset := index * 4 % 18446744073709551616
    if (offset + 4) % 18446744073709551616 > b.bytes.length then
      some (.error .invalidDimensions)
    else if offset + 4 ≤ b.bytes.length then
      some (.ok (decodeF32At b.bytes offset b.fileEndian))
    else none

/-- `DataBlock::get_i16`: same wrapping-`usize` bounds check and
panicking byte reads as `get_f32`, with element width 2. -/
def get_i16 (b : DataBlock) (index : Nat) : Option (Except Error Int) :=
  if b.mode ≠ .int16 then some (.error .invalidMode)
  else
    let offset := index * 2 % 18446744073709551616
    if (offset + 2) % 18446744073709551616 > b.bytes.length then
      some (.error .invalidDimensions)
    else if offset + 2 ≤ b.bytes.length then
      some (.ok (decodeI16At b.bytes offset b.fileEndian))
    else none

/-- `DataBlock::read_f32_into`: destination length `×4` may be **at
most** the byte length; fills the destination from offset 0. -/
def read_f32_into (b : DataBlock) (out : List Nat) :
    Except Error (List Nat) :=
  if b.mode ≠ .float32 then .error .invalidMode
  else if out.length * 4 > b.bytes.length then .error .invalidDimensions
  else .ok (List.ofFn fun i : Fin out.length =>
    decodeF32At b.bytes (i.val * 4) b.fileEndian)

/-- `DataBlock::get_packed4bit_value`: checks the index against the
declared `voxel_count` only, then indexes `bytes[index / 2]` with the
built-in (panicking) slice index — `none` models that panic. -/
def get_packed4bit_value (b : DataBlock) (index : Nat) :
    Option (Except Error Nat) :=
  if b.mode ≠ .packed4Bit then some (.error .invalidMode)
  else if index ≥ b.voxelCount then some (.error .invalidDimensions)
  else
    match b.bytes[index / 2]? with
    | none => none
    | some byte =>
      let packed := Packed4Bit.decode byte
      some (.ok (if index % 2 = 0 then packed.first else packed.second))

/-- `DataBlock::iter_packed4bit_values`: two nibbles per stored byte,
truncated to exactly `voxel_count` logical samples. -/
def iter_packed4bit_values (b : DataBlock) : Except Error (List Nat) :=
  if b.mode ≠ .packed4Bit then .error .invalidMode
  else .ok ((b.bytes.flatMap fun byte =>
    [(Packed4Bit.decode byte).first, (Packed4Bit.decode byte).second]).take
      b.voxelCount)

end DataBlock

namespace DataBlockMut

/-- `DataBlockMut::set_f32`: mode check, then **exact** length check
(`values.len() * 4 != bytes.len()`), then encode every value in file
byte order; returns the rewritten buffer. -/
def set_f32 (b : DataBlock) (values : List Nat) :
    Except Error (List Nat) :=
  if b.mode ≠ .float32 then .error .invalidMode
  else if values.length * 4 ≠ b.bytes.length then .error .invalidDimensions
  else .ok (values.flatMap fun v =>
    [encWordByte b.fileEndian v 0, encWordByte b.fileEndian v 1,
     encWordByte b.fileEndian v 2, encWordByte b.fileEndian v 3])

/-- `DataBlockMut::set_i16`: mode check, then **exact** length check
(`values.len() * 2 != bytes.len()`). -/
def set_i16 (b : DataBlock) (values : List Int) :
    Except Error (List Nat) :=
  if b.mode ≠ .int16 then .error .invalidMode
  else if values.length * 2 ≠ b.bytes.length then .error .invalidDimensions
  else .ok (values.flatMap fun v =>
    [encI16Byte b.fileEndian v 0, encI16Byte b.fileEndian v 1])

end DataBlockMut

/-! ## Endian swap (spec-modelled) -/

/-- Byte-reversal of a 32-bit word. -/
def bswap32 (n : Nat) : Nat :=
  n % 4294967296 / 16777216 + n / 65536 % 256 * 256
    + n / 256 % 256 * 65536 + n % 256 * 16777216

/-- Byte-reversal of an `i32` value through its bit pattern. -/
def swapI32 (x : Int) : Int := toI32 (bswap32 (i32Bits x))

/-- Modelled from the spec: the specification (§4.1, §8.4) describes a
`swap_endian` operation that byte-reverses every numeric field of the
metadata record in place, including the packed EXTTYP and NVERSION
sub-fields at reserved-region bytes 8–11 and 12–15; no such function
exists under `src/` (only a comment in the test suite mentions
`swap_endian_bytes`).  Non-numeric byte fields (`map`, `machst`,
`label`, the rest of `extra`) are left untouched, following the spec's
"every numeric field" wording; the spec explicitly leaves the machine
signature's treatment open. -/
def Header.swap_endian (h : Header) : Header :=
  { h with
    nx := swapI32 h.nx
    ny := swapI32 h.ny
    nz := swapI32 h.nz
    mode := swapI32 h.mode
    nxstart := swapI32 h.nxstart
    nystart := swapI32 h.nystart
    nzstart := swapI32 h.nzstart
    mx := swapI32 h.mx
    my := swapI32 h.my
    mz := swapI32 h.mz
    xlen := bswap32 h.xlen
    ylen := bswap32 h.ylen
    zlen := bswap32 h.zlen
    alpha := bswap32 h.alpha
    beta := bswap32 h.beta
    gamma := bswap32 h.gamma
    mapc := swapI32 h.mapc
    mapr := swapI32 h.mapr
    maps := swapI32 h.maps
    dmin := bswap32 h.dmin
    dmax := bswap32 h.dmax
    dmean := bswap32 h.dmean
    ispg := swapI32 h.ispg
    nsymbt := swapI32 h.nsymbt
    extra := h.extra.take 8
      ++ [h.extra.getD 11 0, h.extra.getD 10 0, h.extra.getD 9 0,
          h.extra.getD 8 0, h.extra.getD 15 0, h.extra.getD 14 0,
          h.extra.getD 13 0, h.extra.getD 12 0]
      ++ h.extra.drop 16
    origin := [bswap32 (h.origin.getD 0 0), bswap32 (h.origin.getD 1 0),
      bswap32 (h.origin.getD 2 0)]
    rms := bswap32 h.rms
    nlabl := swapI32 h.nlabl }

/-! ## Concrete records and blocks used by witnesses and
counterexamples -/

/-- A valid little-endian record: `2×2×2`, 32-bit float mode. -/
def hdrLE : Header := { Header.new with nx := 2, ny := 2, nz := 2 }

/-- The same record declaring big-endian byte order. -/
def hdrBE : Header := { hdrLE with machst := [0x11, 0x11, 0x00, 0x00] }

/-- A `2×1×1` packed 4-bit (mode 101) record. -/
def hdrPacked : Header :=
  { Header.new with nx := 2, ny := 1, nz := 1, mode := 101 }

/-- A record whose axis fields are not a permutation of `{1,2,3}` and
whose space group is far outside any legal range, but whose dimensions,
mode and signature are fine. -/
def hdrBadAxes : Header :=
  { Header.new with
    nx := 1
    ny := 1
    nz := 1
    mode := 0
    mapc := 7
    mapr := 7
    maps := 7
    ispg := -999 }

/-- A minimal valid record: `1×1×1`, 8-bit mode, no extension
(`data_size = 1`). -/
def hdrTiny : Header :=
  { Header.new with nx := 1, ny := 1, nz := 1, mode := 0 }

/-- A record that passes `validate` with extension length `-1`: the
`usize` cast makes the extension size `2^64 - 1` and the wrapped total
`(2^64 - 1) + 1 ≡ 0`, so the length guard passes on any buffer and
`split_at` panics. -/
def hdrSplitPanic : Header := { hdrTiny with nsymbt := -1 }

/-- A big-endian record whose reserved region holds `[0,0,0,1]` at the
EXTTYP bytes 8–11 and `[0,0,0,2]` at the NVERSION bytes 12–15. -/
def hdrResvBE : Header :=
  { Header.new with
    machst := [0x11, 0x11, 0x00, 0x00]
    extra := List.replicate 8 0 ++ [0, 0, 0, 1] ++ [0, 0, 0, 2]
      ++ List.replicate 84 0 }

/-- The same reserved region declaring little-endian byte order. -/
def hdrResvLE : Header :=
  { hdrResvBE with machst := [0x44, 0x44, 0x00, 0x00] }

/-- A packed 4-bit block: 3 stored bytes (6 nibbles), 5 declared
voxels. -/
def blkPacked5 : DataBlock :=
  { bytes := [0x21, 0x43, 0x65]
    mode := .packed4Bit
    fileEndian := .littleEndian
    voxelCount := 5 }

/-- A packed 4-bit block whose declared voxel count (1) exceeds what its
empty byte buffer can hold. -/
def blkPackedEmpty : DataBlock :=
  { bytes := []
    mode := .packed4Bit
    fileEndian := .littleEndian
    voxelCount := 1 }

/-- An 8-byte float32 block (two voxels), little-endian. -/
def blkF32 : DataBlock :=
  { bytes := [0, 0, 128, 63, 0, 0, 0, 64]
    mode := .float32
    fileEndian := .littleEndian
    voxelCount := 2 }

/-- A 4-byte int16 block (two voxels), big-endian. -/
def blkI16BE : DataBlock :=
  { bytes := [255, 255, 0, 5]
    mode := .int16
    fileEndian := .bigEndian
    voxelCount := 2 }

/-! ## Serialisation primitive lemmas -/

theorem encWordByte_lt (e : FileEndian) (n k : Nat) : encWordByte e n k < 256 := by
  cases e <;> simp [encWordByte] <;> omega

/-- Reassembling the four little-endian bytes of a word below `2 ^ 32`
restores the word; same for big-endian. -/
theorem decodeWord_encWordByte (e : FileEndian) (n : Nat) (hn : n < 4294967296) :
    decodeWord e (encWordByte e n 0) (encWordByte e n 1)
      (encWordByte e n 2) (encWordByte e n 3) = n := by
  cases e <;> simp [decodeWord, encWordByte] <;> omega

/-- The `i32` byte round-trip: serialising an in-range `i32` and
reassembling it restores the value. -/
theorem toI32_decodeWord_encI32Byte (e : FileEndian) (x : Int)
    (h1 : -2147483648 ≤ x) (h2 : x < 2147483648) :
    toI32 (decodeWord e (encI32Byte e x 0) (encI32Byte e x 1)
      (encI32Byte e x 2) (encI32Byte e x 3)) = x := by
  have hb : i32Bits x < 4294967296 := by
    simp only [i32Bits]
    omega
  rw [encI32Byte, encI32Byte, encI32Byte, encI32Byte, decodeWord_encWordByte e _ hb]
  simp only [toI32, i32Bits]
  split <;> omega

theorem list_length_eq_four {l : List Nat} (hl : l.length = 4) :
    ∃ a b c d, l = [a, b, c, d] := by
  rcases l with _ | ⟨a, _ | ⟨b, _ | ⟨c, _ | ⟨d, _ | ⟨x, t⟩⟩⟩⟩⟩ <;> simp_all

namespace Header

theorem encode_length (h : Header) : (encode_to_bytes h).length = 1024 := by
  simp only [encode_to_bytes]
  exact List.length_ofFn _

/-- Reading the encoded buffer at any offset returns the byte the encoder
placed there (`0` past the end, matching `encodeByte`'s final branch). -/
theorem encode_getD (h : Header) (i : Nat) :
    (encode_to_bytes h).getD i 0 = encodeByte h i := by
  by_cases hi : i < 1024
  · rw [List.getD_eq_getElem _ _ (by rw [encode_length]; exact hi)]
    simp only [encode_to_bytes]
    exact List.getElem_ofFn _ _ _
  · rw [List.getD_eq_default _ _ (by rw [encode_length]; omega)]
    simp only [encodeByte]
    repeat rw [if_neg (by omega)]

/-- The encoder's bytes 96–195 are the `extra` region, verbatim. -/
theorem encodeByte_extra (h : Header) (i : Nat) (h1 : 96 ≤ i) (h2 : i < 196) :
    encodeByte h i = h.extra.getD (i - 96) 0 := by
  simp only [encodeByte]
  repeat rw [if_neg (by omega)]
  rw [if_pos (by omega)]

/-- The encoder's bytes 224–1023 are the `label` region, verbatim. -/
theorem encodeByte_label (h : Header) (i : Nat) (h1 : 224 ≤ i) (h2 : i < 1024) :
    encodeByte h i = h.label.getD (i - 224) 0 := by
  simp only [encodeByte]
  repeat rw [if_neg (by omega)]
  rw [if_pos (by omega)]

set_option maxHeartbeats 4000000 in
/-- Decoding an encoded header restores every field, for any in-range
header: the decoder re-detects the byte order from the verbatim-copied
machine stamp, so it always reads with the order the encoder wrote. -/
theorem decode_encode_of_WF (h : Header) (hwf : h.WF) :
    decode_from_bytes (encode_to_bytes h) = h := by
  obtain ⟨hnx1, hnx2, hny1, hny2, hnz1, hnz2, hmo1, hmo2, hxs1, hxs2, hys1, hys2,
    hzs1, hzs2, hmx1, hmx2, hmy1, hmy2, hmz1, hmz2, hxl, hyl, hzl, hal, hbe, hga,
    hmc1, hmc2, hmr1, hmr2, hms1, hms2, hdm1, hdm2, hdm3, hsp1, hsp2, hsy1, hsy2,
    hex, hor, horb, hmap, hmach, hrms, hnl1, hnl2, hlab⟩ := hwf
  obtain ⟨m0, m1, m2, m3, hm4⟩ := list_length_eq_four hmach
  have hE : FileEndian.fromMachst
      [encodeByte h 212, encodeByte h 213, encodeByte h 214, encodeByte h 215]
      = FileEndian.fromMachst h.machst := by
    simp [encodeByte, hm4]
  apply Header.ext
  case nx =>
    simp only [decode_from_bytes, encode_getD]
    rw [hE]
    simp only [encodeByte]
    norm_num
    exact toI32_decodeWord_encI32Byte _ _ hnx1 hnx2
  case ny =>
    simp only [decode_from_bytes, encode_getD]
    rw [hE]
    simp only [encodeByte]
    norm_num
    exact toI32_decodeWord_encI32Byte _ _ hny1 hny2
  case nz =>
    simp only [decode_from_bytes, encode_getD]
    rw [hE]
    simp only [encodeByte]
    norm_num
    exact toI32_decodeWord_encI32Byte _ _ hnz1 hnz2
  case mode =>
    simp only [decode_from_bytes, encode_getD]
    rw [hE]
    simp only [encodeByte]
    norm_num
    exact toI32_decodeWord_encI32Byte _ _ hmo1 hmo2
  case nxstart =>
    simp only [decode_from_bytes, encode_getD]
    rw [hE]
    simp only [encodeByte]
    norm_num
    exact toI32_decodeWord_encI32Byte _ _ hxs1 hxs2
  case nystart =>
    simp only [decode_from_bytes, encode_getD]
    rw [hE]
    simp only [encodeByte]
    norm_num
    exact toI32_decodeWord_encI32Byte _ _ hys1 hys2
  case nzstart =>
    simp only [decode_from_bytes, encode_getD]
    rw [hE]
    simp only [encodeByte]
    norm_num
    exact toI32_decodeWord_encI32Byte _ _ hzs1 hzs2
  case mx =>
    simp only [decode_from_bytes, encode_getD]
    rw [hE]
    simp only [encodeByte]
    norm_num
    exact toI32_decodeWord_encI32Byte _ _ hmx1 hmx2
  case my =>
    simp only [decode_from_bytes, encode_getD]
    rw [hE]
    simp only [encodeByte]
    norm_num
    exact toI32_decodeWord_encI32Byte _ _ hmy1 hmy2
  case mz =>
    simp only [decode_from_bytes, encode_getD]
    rw [hE]
    simp only [encodeByte]
    norm_num
    exact toI32_decodeWord_encI32Byte _ _ hmz1 hmz2
  case xlen =>
    simp only [decode_from_bytes, encode_getD]
    rw [hE]
    simp only [encodeByte]
    norm_num
    exact decodeWord_encWordByte _ _ hxl
  case ylen =>
    simp only [decode_from_bytes, encode_getD]
    rw [hE]
    simp only [encodeByte]
    norm_num
    exact decodeWord_encWordByte _ _ hyl
  case zlen =>
    simp only [decode_from_bytes, encode_getD]
    rw [hE]
    simp only [encodeByte]
    norm_num
    exact decodeWord_encWordByte _ _ hzl
  case alpha =>
    simp only [decode_from_bytes, encode_getD]
    rw [hE]
    simp only [encodeByte]
    norm_num
    exact decodeWord_encWordByte _ _ hal
  case beta =>
    simp only [decode_from_bytes, encode_getD]
    rw [hE]
    simp only [encodeByte]
    norm_num
    exact decodeWord_encWordByte _ _ hbe
  case gamma =>
    simp only [decode_from_bytes, encode_getD]
    rw [hE]
    simp only [encodeByte]
    norm_num
    exact decodeWord_encWordByte _ _ hga
  case mapc =>
    simp only [decode_from_bytes, encode_getD]
    rw [hE]
    simp only [encodeByte]
    norm_num
    exact toI32_decodeWord_encI32Byte _ _ hmc1 hmc2
  case mapr =>
    simp only [decode_from_bytes, encode_getD]
    rw [hE]
    simp only [encodeByte]
    norm_num
    exact toI32_decodeWord_encI32Byte _ _ hmr1 hmr2
  case maps =>
    simp only [decode_from_bytes, encode_getD]
    rw [hE]
    simp only [encodeByte]
    norm_num
    exact toI32_decodeWord_encI32Byte _ _ hms1 hms2
  case dmin =>
    simp only [decode_from_bytes, encode_getD]
    rw [hE]
    simp only [encodeByte]
    norm_num
    exact decodeWord_encWordByte _ _ hdm1
  case dmax =>
    simp only [decode_from_bytes, encode_getD]
    rw [hE]
    simp only [encodeByte]
    norm_num
    exact decodeWord_encWordByte _ _ hdm2
  case dmean =>
    simp only [decode_from_bytes, encode_getD]
    rw [hE]
    simp only [encodeByte]
    norm_num
    exact decodeWord_encWordByte _ _ hdm3
  case ispg =>
    simp only [decode_from_bytes, encode_getD]
    rw [hE]
    simp only [encodeByte]
    norm_num
    exact toI32_decodeWord_encI32Byte _ _ hsp1 hsp2
  case nsymbt =>
    simp only [decode_from_bytes, encode_getD]
    rw [hE]
    simp only [encodeByte]
    norm_num
    exact toI32_decodeWord_encI32Byte _ _ hsy1 hsy2
  case extra =>
    simp only [decode_from_bytes, encode_getD]
    refine List.ext_getElem (by rw [List.length_ofFn, hex]) ?_
    intro i h1 h2
    simp only [List.getElem_ofFn]
    rw [encodeByte_extra h _ (by omega) (by omega)]
    have hi : 96 + i - 96 = i := by omega
    rw [hi, List.getD_eq_getElem _ _ (by omega)]
  case origin =>
    obtain ⟨a, b, c, hor3⟩ := List.length_eq_three.mp hor
    have ha : a < 4294967296 := horb a (by rw [hor3]; simp)
    have hb : b < 4294967296 := horb b (by rw [hor3]; simp)
    have hc : c < 4294967296 := horb c (by rw [hor3]; simp)
    simp only [decode_from_bytes, encode_getD]
    rw [hE]
    simp only [encodeByte]
    rw [hor3]
    norm_num
    exact ⟨decodeWord_encWordByte _ _ ha, decodeWord_encWordByte _ _ hb,
      decodeWord_encWordByte _ _ hc⟩
  case map =>
    simp only [decode_from_bytes, encode_getD]
    simp only [encodeByte]
    norm_num
    obtain ⟨a, b, c, d, hmap4⟩ := list_length_eq_four hmap
    simp [hmap4]
  case machst =>
    simp only [decode_from_bytes, encode_getD]
    simp only [encodeByte]
    norm_num
    simp [hm4]
  case rms =>
    simp only [decode_from_bytes, encode_getD]
    rw [hE]
    simp only [encodeByte]
    norm_num
    exact decodeWord_encWordByte _ _ hrms
  case nlabl =>
    simp only [decode_from_bytes, encode_getD]
    rw [hE]
    simp only [encodeByte]
    norm_num
    exact toI32_decodeWord_encI32Byte _ _ hnl1 hnl2
  case label =>
    simp only [decode_from_bytes, encode_getD]
    refine List.ext_getElem (by rw [List.length_ofFn, hlab]) ?_
    intro i h1 h2
    simp only [List.getElem_ofFn]
    rw [encodeByte_label h _ (by omega) (by omega)]
    have hi : 224 + i - 224 = i := by omega
    rw [hi, List.getD_eq_getElem _ _ (by omega)]

end Header

end Mrc

namespace Mrc

/-! ## Claim C10 -/

/-- C10: the default-constructed record (`Header::new`, also
`Header::default`) has all-zero dimensions and does not pass
`validate()`, which requires them strictly positive. -/
theorem c10_default_header_fails_validate :
    Header.new.nx = 0 ∧ Header.new.ny = 0 ∧ Header.new.nz = 0
      ∧ Header.new.validate = false ∧ Header.default.validate = false := by
  decide

/-! ## Claim C3 -/

/-- C3 counterexample: `hdrBadAxes` has `mapc = mapr = maps = 7` — not a
permutation of `{1,2,3}` — and a space group of `-999`, with all other
claimed conditions holding; the claim requires `validate()` to return
`false`, but it returns `true`. -/
theorem c3_counterexample :
    Header.validate hdrBadAxes = true
      ∧ ¬(hdrBadAxes.mapc = 1 ∨ hdrBadAxes.mapc = 2 ∨ hdrBadAxes.mapc = 3) := by
  decide

/-- C3 amended: `validate()` returns true iff the three dimensions are
strictly positive, the mode code is registered, and the format signature
equals `"MAP "`; the axis-correspondence fields and the space group are
not examined at all (and the function is total Boolean — it never
fails). -/
theorem c3_validate_characterisation (h : Header) :
    h.validate = true ↔
      (0 < h.nx ∧ 0 < h.ny ∧ 0 < h.nz
        ∧ (Mode.fromI32 h.mode).isSome = true
        ∧ h.map = [0x4D, 0x41, 0x50, 0x20]) := by
  have hmode : (h.mode = 0 ∨ h.mode = 1 ∨ h.mode = 2 ∨ h.mode = 3 ∨ h.mode = 4
      ∨ h.mode = 6 ∨ h.mode = 12 ∨ h.mode = 101)
      ↔ (Mode.fromI32 h.mode).isSome = true := by
    unfold Mode.fromI32
    split_ifs <;> simp_all
  unfold Header.validate
  rw [decide_eq_true_iff]
  constructor
  · rintro ⟨a, b, c, d, e⟩
    exact ⟨a, b, c, hmode.mp d, e⟩
  · rintro ⟨a, b, c, d, e⟩
    exact ⟨a, b, c, hmode.mpr d, e⟩

/-! ## Claim C2 -/

/-- C2 counterexample: the `2×1×1` packed 4-bit (mode 101) record has
`data_size = 2` — one byte per voxel — while the claim's packed rule
`⌈nx·ny·nz/2⌉` demands `1`. -/
theorem c2_counterexample :
    hdrPacked.data_size = 2
      ∧ (2 * 1 * 1 + 1) / 2 = 1
      ∧ hdrPacked.data_size ≠ (2 * 1 * 1 + 1) / 2 := by
  decide

/-- C2 amended: for every record with nonnegative in-range dimensions, a
registered mode, and a voxel count that fits `usize` arithmetic,
`data_size` equals `nx·ny·nz × byte_width(mode)` for **every** registered
mode — including the packed 4-bit mode, whose byte width is 1 (one byte
per voxel; the code does not use `⌈nx·ny·nz/2⌉`). -/
theorem c2_data_size_eq (h : Header) (m : Mode)
    (hm : Mode.fromI32 h.mode = some m)
    (h0 : 0 ≤ h.nx) (h1 : 0 ≤ h.ny) (h2 : 0 ≤ h.nz)
    (hx : h.nx < 2147483648) (hy : h.ny < 2147483648) (hz : h.nz < 2147483648)
    (hsp : h.nx.toNat * h.ny.toNat * h.nz.toNat * 8 < 18446744073709551616) :
    h.data_size = h.nx.toNat * h.ny.toNat * h.nz.toNat * m.byteSize := by
  have ha : usizeOfI32 h.nx = h.nx.toNat := by unfold usizeOfI32; omega
  have hb : usizeOfI32 h.ny = h.ny.toNat := by unfold usizeOfI32; omega
  have hc : usizeOfI32 h.nz = h.nz.toNat := by unfold usizeOfI32; omega
  unfold Mode.fromI32 at hm
  split_ifs at hm with e0 e1 e2 e3 e4 e6 e12 e101
  · simp only [Option.some.injEq] at hm
    subst hm
    simp only [Header.data_size, ha, hb, hc, e0, if_pos, Mode.byteSize]
    norm_num
    exact Nat.lt_of_le_of_lt (le_mul_of_one_le_right (Nat.zero_le _) (by norm_num)) hsp
  · simp only [Option.some.injEq] at hm
    subst hm
    simp only [Header.data_size, ha, hb, hc, e1, Mode.byteSize]
    norm_num
    exact Nat.lt_of_le_of_lt (Nat.mul_le_mul (Nat.le_refl _) (by norm_num)) hsp
  · simp only [Option.some.injEq] at hm
    subst hm
    simp only [Header.data_size, ha, hb, hc, e2, Mode.byteSize]
    norm_num
    exact Nat.lt_of_le_of_lt (Nat.mul_le_mul (Nat.le_refl _) (by norm_num)) hsp
  · simp only [Option.some.injEq] at hm
    subst hm
    simp only [Header.data_size, ha, hb, hc, e3, Mode.byteSize]
    norm_num
    exact Nat.lt_of_le_of_lt (Nat.mul_le_mul (Nat.le_refl _) (by norm_num)) hsp
  · simp only [Option.some.injEq] at hm
    subst hm
    simp only [Header.data_size, ha, hb, hc, e4, Mode.byteSize]
    norm_num
    exact Nat.lt_of_le_of_lt (Nat.mul_le_mul (Nat.le_refl _) (by norm_num)) hsp
  · simp only [Option.some.injEq] at hm
    subst hm
    simp only [Header.data_size, ha, hb, hc, e6, Mode.byteSize]
    norm_num
    exact Nat.lt_of_le_of_lt (Nat.mul_le_mul (Nat.le_refl _) (by norm_num)) hsp
  · simp only [Option.some.injEq] at hm
    subst hm
    simp only [Header.data_size, ha, hb, hc, e12, Mode.byteSize]
    norm_num
    exact Nat.lt_of_le_of_lt (Nat.mul_le_mul (Nat.le_refl _) (by norm_num)) hsp
  · simp only [Option.some.injEq] at hm
    subst hm
    simp only [Header.data_size, ha, hb, hc, e101, Mode.byteSize]
    norm_num
    exact Nat.lt_of_le_of_lt (le_mul_of_one_le_right (Nat.zero_le _) (by norm_num)) hsp

/-- C2 witness: the amended law evaluated on the packed-mode record:
`data_size hdrPacked = 2·1·1 × 1`. -/
theorem c2_witness :
    Header.data_size hdrPacked
      = hdrPacked.nx.toNat * hdrPacked.ny.toNat * hdrPacked.nz.toNat
        * Mode.byteSize .packed4Bit :=
  c2_data_size_eq hdrPacked .packed4Bit (by decide) (by decide) (by decide)
    (by decide) (by decide) (by decide) (by decide) (by decide)

/-! ## Claim C5 -/

/-- C5: packing `(11, 3)` stores 11 in the low nibble and 3 in the high
nibble, and decoding the byte yields `first = 11`, `second = 3`; the
packed block with 3 stored bytes (6 nibbles) and declared voxel count 5
yields exactly 5 logical samples. -/
theorem c5_packed4bit_laws :
    Packed4Bit.decode (Packed4Bit.encode ⟨11, 3⟩) = ⟨11, 3⟩
      ∧ (Packed4Bit.decode (Packed4Bit.encode ⟨11, 3⟩)).first = 11
      ∧ (Packed4Bit.decode (Packed4Bit.encode ⟨11, 3⟩)).second = 3
      ∧ DataBlock.iter_packed4bit_values blkPacked5 = .ok [1, 2, 3, 4, 5]
      ∧ blkPacked5.bytes.length * 2 = 6
      ∧ blkPacked5.voxelCount = 5 := by
  decide

end Mrc

namespace Mrc

/-! ## Claim C4 -/

/-- C4 counterexample: `hdrTiny` declares no extension and one data
byte; supplying two bytes (one too many) must fail with
`InvalidDimensions` per the claim, but both constructors accept the
oversized buffer. -/
theorem c4_counterexample :
    MrcView.new hdrTiny [7, 8] = some (.ok ([], [7, 8]))
      ∧ MrcViewMut.new hdrTiny [7, 8] = some (.ok ([], [7, 8]))
      ∧ usizeOfI32 hdrTiny.nsymbt + hdrTiny.data_size = 1 := by
  decide

/-- C4 amended: view construction fails with `InvalidHeader` when the
record fails `validate()`; for a valid record it fails with
`InvalidDimensions` exactly when fewer than `nsymbt + data_size` bytes
(a wrapping `usize` sum) are supplied — hence one byte too few fails —
and otherwise succeeds whenever the extension size itself fits the
buffer (so an oversized buffer, one byte too many, is accepted, the
leading `nsymbt` bytes becoming the extension region); but when the
wrapped total passes the length guard while the extension size exceeds
the buffer — reachable only when `nsymbt + data_size` overflows
`usize`, e.g. `nsymbt = -1` — `split_at` panics instead of returning
any error. -/
theorem c4_view_construction (h : Header) (data : List Nat) :
    (h.validate = false →
      MrcView.new h data = some (.error .invalidHeader)
        ∧ MrcViewMut.new h data = some (.error .invalidHeader))
    ∧ (h.validate = true →
      (data.length < (usizeOfI32 h.nsymbt + h.data_size) % 18446744073709551616 →
        MrcView.new h data = some (.error .invalidDimensions)
          ∧ MrcViewMut.new h data = some (.error .invalidDimensions))
      ∧ ((usizeOfI32 h.nsymbt + h.data_size) % 18446744073709551616 ≤ data.length →
        usizeOfI32 h.nsymbt ≤ data.length →
          MrcView.new h data = some (.ok (data.take (usizeOfI32 h.nsymbt),
              data.drop (usizeOfI32 h.nsymbt)))
            ∧ MrcViewMut.new h data = some (.ok (data.take (usizeOfI32 h.nsymbt),
              data.drop (usizeOfI32 h.nsymbt))))
      ∧ ((usizeOfI32 h.nsymbt + h.data_size) % 18446744073709551616 ≤ data.length →
        data.length < usizeOfI32 h.nsymbt →
          MrcView.new h data = none ∧ MrcViewMut.new h data = none))
    ∧ MrcView.new hdrSplitPanic [0] = none
    ∧ MrcViewMut.new hdrSplitPanic [0] = none := by
  refine ⟨fun hv => ⟨?_, ?_⟩,
    fun hv => ⟨fun hlt => ⟨?_, ?_⟩, fun hge hext => ⟨?_, ?_⟩,
      fun hge hext => ⟨?_, ?_⟩⟩,
    by decide, by decide⟩
  · simp only [MrcView.new]
    rw [if_pos (by rw [hv])]
  · simp only [MrcViewMut.new]
    rw [if_pos (by rw [hv])]
  · simp only [MrcView.new]
    rw [if_neg (by rw [hv]; simp), if_pos hlt]
  · simp only [MrcViewMut.new]
    rw [if_neg (by rw [hv]; simp), if_pos hlt]
  · simp only [MrcView.new]
    rw [if_neg (by rw [hv]; simp), if_neg (by omega), if_pos hext]
  · simp only [MrcViewMut.new]
    rw [if_neg (by rw [hv]; simp), if_neg (by omega), if_pos hext]
  · simp only [MrcView.new]
    rw [if_neg (by rw [hv]; simp), if_neg (by omega), if_neg (by omega)]
  · simp only [MrcViewMut.new]
    rw [if_neg (by rw [hv]; simp), if_neg (by omega), if_neg (by omega)]

/-- C4 witness: one byte too few (`hdrTiny` needs 1 data byte, none
supplied) fails with `InvalidDimensions` in both constructors. -/
theorem c4_witness :
    MrcView.new hdrTiny [] = some (.error .invalidDimensions)
      ∧ MrcViewMut.new hdrTiny [] = some (.error .invalidDimensions) :=
  ((c4_view_construction hdrTiny []).2.1 (by decide)).1 (by decide)

/-! ## Claim C6 -/

/-- C6: typed bulk writes demand the exact byte length — `InvalidMode`
on a mode mismatch, `InvalidDimensions` unless
`values.len × width = len_bytes` exactly — while the bulk read
`read_f32_into` accepts any destination with
`out.len × width ≤ len_bytes`. -/
theorem c6_bulk_write_exact_read_at_most (b : DataBlock) (values : List Nat)
    (ivalues : List Int) (out : List Nat) :
    (b.mode ≠ .float32 → DataBlockMut.set_f32 b values = .error .invalidMode)
    ∧ (b.mode = .float32 → values.length * 4 ≠ b.bytes.length →
        DataBlockMut.set_f32 b values = .error .invalidDimensions)
    ∧ (b.mode = .float32 → values.length * 4 = b.bytes.length →
        DataBlockMut.set_f32 b values = .ok (values.flatMap fun v =>
          [encWordByte b.fileEndian v 0, encWordByte b.fileEndian v 1,
           encWordByte b.fileEndian v 2, encWordByte b.fileEndian v 3]))
    ∧ (b.mode ≠ .int16 → DataBlockMut.set_i16 b ivalues = .error .invalidMode)
    ∧ (b.mode = .int16 → ivalues.length * 2 ≠ b.bytes.length →
        DataBlockMut.set_i16 b ivalues = .error .invalidDimensions)
    ∧ (b.mode = .int16 → ivalues.length * 2 = b.bytes.length →
        DataBlockMut.set_i16 b ivalues = .ok (ivalues.flatMap fun v =>
          [encI16Byte b.fileEndian v 0, encI16Byte b.fileEndian v 1]))
    ∧ (b.mode = .float32 → out.length * 4 ≤ b.bytes.length →
        DataBlock.read_f32_into b out = .ok (List.ofFn fun i : Fin out.length =>
          DataBlock.decodeF32At b.bytes (i.val * 4) b.fileEndian)) := by
  refine ⟨fun hm => ?_, fun hm hlen => ?_, fun hm hlen => ?_, fun hm => ?_,
    fun hm hlen => ?_, fun hm hlen => ?_, fun hm hlen => ?_⟩
  · simp [DataBlockMut.set_f32, hm]
  · simp [DataBlockMut.set_f32, hm, hlen]
  · simp [DataBlockMut.set_f32, hm, hlen]
  · simp [DataBlockMut.set_i16, hm]
  · simp [DataBlockMut.set_i16, hm, hlen]
  · simp [DataBlockMut.set_i16, hm, hlen]
  · simp only [DataBlock.read_f32_into, hm]
    rw [if_neg (by simp), if_neg (by omega)]

/-- C6 witness: the exact-fit write succeeds on the 8-byte float block,
and a 1-element read succeeds although the block holds 2 elements. -/
theorem c6_witness :
    DataBlockMut.set_f32 blkF32 [5, 6] = .ok [5, 0, 0, 0, 6, 0, 0, 0]
      ∧ DataBlock.read_f32_into blkF32 [0] = .ok [1065353216] := by
  constructor
  · rw [(c6_bulk_write_exact_read_at_most blkF32 [5, 6] [] [0]).2.2.1 rfl
      (by decide)]
    decide
  · rw [(c6_bulk_write_exact_read_at_most blkF32 [5, 6] [] [0]).2.2.2.2.2.2 rfl
      (by decide)]
    decide

/-! ## Claim C7 -/

/-- C7 counterexample: on the packed block with empty storage but a
declared voxel count of 1, reading index 0 computes a byte offset past
the end of the byte range; the claim demands `InvalidDimensions`, but
the code passes its voxel-count check and then panics on the slice
index (modelled `none` — no error value is returned). -/
theorem c7_counterexample :
    DataBlock.get_packed4bit_value blkPackedEmpty 0 = none
      ∧ blkPackedEmpty.voxelCount = 1
      ∧ blkPackedEmpty.bytes.length = 0 := by
  decide

/-- C7 amended: every per-sample get first checks the mode
(`InvalidMode`).  `get_f32` / `get_i16` then compare the wrapping-`usize`
byte offset plus width against the stored length: when that check fails
they return `InvalidDimensions`, and when it passes they return the
decoded native-endian value whenever the true offset is in range — so
for every index whose `index × width + width` does not overflow `usize`
(every index reachable on a real buffer) they behave exactly as claimed
and never panic; at overflowing indices the wrapped check can pass
spuriously, after which the code either reads at the wrapped offset
(index `2^62` on the 8-byte float block returns the element at offset 0)
or panics on the slice index (index `2^62 - 1`).
`get_packed4bit_value` bounds-checks the index against the declared
voxel count rather than the byte range — it returns the decoded nibble
whenever `index / 2` is inside the buffer, but panics when the declared
voxel count exceeds the stored nibble capacity. -/
theorem c7_per_sample_get (b : DataBlock) (index : Nat) :
    (b.mode ≠ .float32 → b.get_f32 index = some (.error .invalidMode))
    ∧ (b.mode = .float32 →
        (index * 4 % 18446744073709551616 + 4) % 18446744073709551616
            > b.bytes.length →
        b.get_f32 index = some (.error .invalidDimensions))
    ∧ (b.mode = .float32 →
        (index * 4 % 18446744073709551616 + 4) % 18446744073709551616
            ≤ b.bytes.length →
        index * 4 % 18446744073709551616 + 4 ≤ b.bytes.length →
        b.get_f32 index = some (.ok (DataBlock.decodeF32At b.bytes
          (index * 4 % 18446744073709551616) b.fileEndian)))
    ∧ (b.mode = .float32 →
        (index * 4 % 18446744073709551616 + 4) % 18446744073709551616
            ≤ b.bytes.length →
        b.bytes.length < index * 4 % 18446744073709551616 + 4 →
        b.get_f32 index = none)
    ∧ (b.mode ≠ .int16 → b.get_i16 index = some (.error .invalidMode))
    ∧ (b.mode = .int16 →
        (index * 2 % 18446744073709551616 + 2) % 18446744073709551616
            > b.bytes.length →
        b.get_i16 index = some (.error .invalidDimensions))
    ∧ (b.mode = .int16 →
        (index * 2 % 18446744073709551616 + 2) % 18446744073709551616
            ≤ b.bytes.length →
        index * 2 % 18446744073709551616 + 2 ≤ b.bytes.length →
        b.get_i16 index = some (.ok (DataBlock.decodeI16At b.bytes
          (index * 2 % 18446744073709551616) b.fileEndian)))
    ∧ (b.mode = .int16 →
        (index * 2 % 18446744073709551616 + 2) % 18446744073709551616
            ≤ b.bytes.length →
        b.bytes.length < index * 2 % 18446744073709551616 + 2 →
        b.get_i16 index = none)
    ∧ (b.mode ≠ .packed4Bit →
        b.get_packed4bit_value index = some (.error .invalidMode))
    ∧ (b.mode = .packed4Bit → b.voxelCount ≤ index →
        b.get_packed4bit_value index = some (.error .invalidDimensions))
    ∧ (b.mode = .packed4Bit → index < b.voxelCount →
        index / 2 < b.bytes.length →
        (b.get_packed4bit_value index).isSome = true)
    ∧ (b.mode = .packed4Bit → index < b.voxelCount →
        b.bytes.length ≤ index / 2 →
        b.get_packed4bit_value index = none)
    ∧ DataBlock.get_f32 blkF32 4611686018427387904
        = some (.ok (DataBlock.decodeF32At blkF32.bytes 0 .littleEndian))
    ∧ DataBlock.get_f32 blkF32 4611686018427387903 = none := by
  refine ⟨fun hm => ?_, fun hm hb => ?_, fun hm hb hc => ?_, fun hm hb hc => ?_,
    fun hm => ?_, fun hm hb => ?_, fun hm hb hc => ?_, fun hm hb hc => ?_,
    fun hm => ?_, fun hm hb => ?_, fun hm hb hc => ?_, fun hm hb hc => ?_,
    by decide, by decide⟩
  · simp [DataBlock.get_f32, hm]
  · simp only [DataBlock.get_f32, hm]
    rw [if_neg (by simp), if_pos hb]
  · simp only [DataBlock.get_f32, hm]
    rw [if_neg (by simp), if_neg (by omega), if_pos hc]
  · simp only [DataBlock.get_f32, hm]
    rw [if_neg (by simp), if_neg (by omega), if_neg (by omega)]
  · simp [DataBlock.get_i16, hm]
  · simp only [DataBlock.get_i16, hm]
    rw [if_neg (by simp), if_pos hb]
  · simp only [DataBlock.get_i16, hm]
    rw [if_neg (by simp), if_neg (by omega), if_pos hc]
  · simp only [DataBlock.get_i16, hm]
    rw [if_neg (by simp), if_neg (by omega), if_neg (by omega)]
  · simp [DataBlock.get_packed4bit_value, hm]
  · simp only [DataBlock.get_packed4bit_value, hm]
    rw [if_neg (by simp), if_pos (by omega)]
  · simp only [DataBlock.get_packed4bit_value, hm]
    rw [if_neg (by simp), if_neg (by omega),
      List.getElem?_eq_getElem hc]
    simp
  · simp only [DataBlock.get_packed4bit_value, hm]
    rw [if_neg (by simp), if_neg (by omega),
      List.getElem?_eq_none (by omega)]

/-- C7 witness: the amended law evaluated on concrete blocks: a float32
read at index 1 and a big-endian int16 read at index 0 both return the
decoded value. -/
theorem c7_witness :
    DataBlock.get_f32 blkF32 1
        = some (.ok (DataBlock.decodeF32At blkF32.bytes
            (1 * 4 % 18446744073709551616) blkF32.fileEndian))
      ∧ DataBlock.get_i16 blkI16BE 0
        = some (.ok (DataBlock.decodeI16At blkI16BE.bytes
            (0 * 2 % 18446744073709551616) blkI16BE.fileEndian)) :=
  ⟨(c7_per_sample_get blkF32 1).2.2.1 rfl (by decide) (by decide),
   (c7_per_sample_get blkI16BE 0).2.2.2.2.2.2.1 rfl (by decide) (by decide)⟩

/-! ## Claim C1 -/

/-- C1: every in-range record that passes `validate()`, whether its
machine signature declares little-endian (`0x44 0x44 0x00 0x00`) or
big-endian (`0x11 0x11 0x00 0x00`), is restored field-for-field by
decoding its 1024-byte encoding. -/
theorem c1_header_roundtrip (h : Header) (hwf : h.WF)
    (_hv : h.validate = true)
    (_hm : h.machst = [0x44, 0x44, 0x00, 0x00]
      ∨ h.machst = [0x11, 0x11, 0x00, 0x00]) :
    Header.decode_from_bytes (Header.encode_to_bytes h) = h :=
  Header.decode_encode_of_WF h hwf

set_option maxRecDepth 10000 in
/-- C1 witness: the round-trip at a concrete valid record, under both
machine signatures. -/
theorem c1_witness :
    Header.decode_from_bytes (Header.encode_to_bytes hdrLE) = hdrLE
      ∧ Header.decode_from_bytes (Header.encode_to_bytes hdrBE) = hdrBE :=
  ⟨c1_header_roundtrip hdrLE (by decide) (by decide) (Or.inl (by decide)),
   c1_header_roundtrip hdrBE (by decide) (by decide) (Or.inr (by decide))⟩

end Mrc

namespace Mrc

/-! ## List splice helpers (shared by the reserved-region and
endian-swap proofs) -/

theorem getD_take_lt (l : List Nat) (n i : Nat) (hi : i < n) :
    (l.take n).getD i 0 = l.getD i 0 := by
  by_cases hl : i < l.length
  · have h1 : i < (l.take n).length := by simp [List.length_take]; omega
    rw [List.getD_eq_getElem _ _ h1, List.getD_eq_getElem _ _ hl]
    simp
  · rw [List.getD_eq_default _ _ (by simp [List.length_take]; omega),
      List.getD_eq_default _ _ (by omega)]

theorem getD_drop_add (l : List Nat) (n j : Nat) :
    (l.drop n).getD j 0 = l.getD (n + j) 0 := by
  by_cases hl : n + j < l.length
  · have h1 : j < (l.drop n).length := by simp [List.length_drop]; omega
    rw [List.getD_eq_getElem _ _ h1, List.getD_eq_getElem _ _ hl]
    simp
  · rw [List.getD_eq_default _ _ (by simp [List.length_drop]; omega),
      List.getD_eq_default _ _ (by omega)]

/-- Reading back the four bytes spliced into positions 8–11. -/
theorem getD_write4_at8 (l : List Nat) (b0 b1 b2 b3 : Nat)
    (hl : 8 ≤ l.length) :
    ((l.take 8 ++ [b0, b1, b2, b3] ++ l.drop 12).getD 8 0 = b0)
    ∧ ((l.take 8 ++ [b0, b1, b2, b3] ++ l.drop 12).getD 9 0 = b1)
    ∧ ((l.take 8 ++ [b0, b1, b2, b3] ++ l.drop 12).getD 10 0 = b2)
    ∧ ((l.take 8 ++ [b0, b1, b2, b3] ++ l.drop 12).getD 11 0 = b3) := by
  have hA : (l.take 8).length = 8 := by simp [List.length_take]; omega
  refine ⟨?_, ?_, ?_, ?_⟩ <;>
    rw [List.append_assoc, List.getD_append_right _ _ _ _ (by omega)] <;>
    simp [hA]

/-- Reading back the four bytes spliced into positions 12–15. -/
theorem getD_write4_at12 (l : List Nat) (b0 b1 b2 b3 : Nat)
    (hl : 12 ≤ l.length) :
    ((l.take 12 ++ [b0, b1, b2, b3] ++ l.drop 16).getD 12 0 = b0)
    ∧ ((l.take 12 ++ [b0, b1, b2, b3] ++ l.drop 16).getD 13 0 = b1)
    ∧ ((l.take 12 ++ [b0, b1, b2, b3] ++ l.drop 16).getD 14 0 = b2)
    ∧ ((l.take 12 ++ [b0, b1, b2, b3] ++ l.drop 16).getD 15 0 = b3) := by
  have hA : (l.take 12).length = 12 := by simp [List.length_take]; omega
  refine ⟨?_, ?_, ?_, ?_⟩ <;>
    rw [List.append_assoc, List.getD_append_right _ _ _ _ (by omega)] <;>
    simp [hA]

/-- Reading back the eight bytes spliced into positions 8–15. -/
theorem getD_write8_at8 (l : List Nat) (b0 b1 b2 b3 b4 b5 b6 b7 : Nat)
    (hl : 8 ≤ l.length) :
    ((l.take 8 ++ [b0, b1, b2, b3, b4, b5, b6, b7] ++ l.drop 16).getD 8 0 = b0)
    ∧ ((l.take 8 ++ [b0, b1, b2, b3, b4, b5, b6, b7] ++ l.drop 16).getD 9 0 = b1)
    ∧ ((l.take 8 ++ [b0, b1, b2, b3, b4, b5, b6, b7] ++ l.drop 16).getD 10 0 = b2)
    ∧ ((l.take 8 ++ [b0, b1, b2, b3, b4, b5, b6, b7] ++ l.drop 16).getD 11 0 = b3)
    ∧ ((l.take 8 ++ [b0, b1, b2, b3, b4, b5, b6, b7] ++ l.drop 16).getD 12 0 = b4)
    ∧ ((l.take 8 ++ [b0, b1, b2, b3, b4, b5, b6, b7] ++ l.drop 16).getD 13 0 = b5)
    ∧ ((l.take 8 ++ [b0, b1, b2, b3, b4, b5, b6, b7] ++ l.drop 16).getD 14 0 = b6)
    ∧ ((l.take 8 ++ [b0, b1, b2, b3, b4, b5, b6, b7] ++ l.drop 16).getD 15 0 = b7) := by
  have hA : (l.take 8).length = 8 := by simp [List.length_take]; omega
  refine ⟨?_, ?_, ?_, ?_, ?_, ?_, ?_, ?_⟩ <;>
    rw [List.append_assoc, List.getD_append_right _ _ _ _ (by omega)] <;>
    simp [hA]

/-- Splicing a list's own bytes 8–15 back between its first 8 and its
tail from 16 reproduces the list. -/
theorem splice_8_16 (l : List Nat) (hl : 16 ≤ l.length) :
    l.take 8 ++ [l.getD 8 0, l.getD 9 0, l.getD 10 0, l.getD 11 0,
      l.getD 12 0, l.getD 13 0, l.getD 14 0, l.getD 15 0] ++ l.drop 16 = l := by
  have hA : (l.take 8).length = 8 := by simp [List.length_take]; omega
  refine List.ext_getElem (by simp [hA, List.length_drop]; omega) ?_
  intro i h1 h2
  rw [← List.getD_eq_getElem _ 0 h1, ← List.getD_eq_getElem _ 0 h2]
  by_cases c1 : i < 8
  · rw [List.append_assoc, List.getD_append _ _ _ _ (by omega)]
    exact getD_take_lt l 8 i c1
  · by_cases c2 : i < 16
    · rw [List.append_assoc, List.getD_append_right _ _ _ _ (by omega), hA]
      interval_cases i <;> simp
    · rw [List.append_assoc, List.getD_append_right _ _ _ _ (by omega), hA,
        List.getD_append_right _ _ _ _ (by simp; omega)]
      simp only [List.length_cons, List.length_nil]
      rw [getD_drop_add]
      congr 1
      omega

/-! ## Claim C8 -/

/-- C8 counterexample: `hdrResvBE` declares big-endian byte order; read
subject to that order, its EXTTYP bytes `[0,0,0,1]` denote 1, but
`exttyp` returns 16777216 — the tag is read with `from_le_bytes`
regardless of the machine signature, so it is **not** subject to the
record's byte order as the claim states. -/
theorem c8_counterexample :
    hdrResvBE.detect_endian = .bigEndian
      ∧ hdrResvBE.exttyp = 16777216
      ∧ toI32 (decodeWord hdrResvBE.detect_endian (hdrResvBE.extra.getD 8 0)
          (hdrResvBE.extra.getD 9 0) (hdrResvBE.extra.getD 10 0)
          (hdrResvBE.extra.getD 11 0)) = 1
      ∧ hdrResvBE.exttyp ≠ toI32 (decodeWord hdrResvBE.detect_endian
          (hdrResvBE.extra.getD 8 0) (hdrResvBE.extra.getD 9 0)
          (hdrResvBE.extra.getD 10 0) (hdrResvBE.extra.getD 11 0)) := by
  decide

/-- C8 amended: the version number (`nversion`/`set_nversion`) is read
and written subject to the record's byte order, but the extension-type
tag (`exttyp`/`set_exttyp`) is always little-endian: its value is
invariant under any change of the machine signature.  Both pairs
round-trip, and the concrete reserved region `[0,0,0,2]` at bytes 12–15
decodes to different versions under the two signatures. -/
theorem c8_reserved_subfields (h : Header) (v : Int)
    (hex : h.extra.length = 100)
    (hv1 : -2147483648 ≤ v) (hv2 : v < 2147483648) :
    ((h.set_exttyp v).exttyp = v)
    ∧ ((h.set_nversion v).nversion = v)
    ∧ (∀ m : List Nat, ({ h with machst := m } : Header).exttyp = h.exttyp)
    ∧ hdrResvBE.nversion = 2
    ∧ hdrResvLE.nversion = 33554432 := by
  refine ⟨?_, ?_, fun m => rfl, by decide, by decide⟩
  · simp only [Header.set_exttyp, Header.exttyp]
    obtain ⟨w0, w1, w2, w3⟩ := getD_write4_at8 h.extra
      (encI32Byte .littleEndian v 0) (encI32Byte .littleEndian v 1)
      (encI32Byte .littleEndian v 2) (encI32Byte .littleEndian v 3)
      (by omega)
    rw [w0, w1, w2, w3]
    exact toI32_decodeWord_encI32Byte .littleEndian v hv1 hv2
  · simp only [Header.set_nversion, Header.nversion, Header.detect_endian]
    obtain ⟨w0, w1, w2, w3⟩ := getD_write4_at12 h.extra
      (encI32Byte (FileEndian.fromMachst h.machst) v 0)
      (encI32Byte (FileEndian.fromMachst h.machst) v 1)
      (encI32Byte (FileEndian.fromMachst h.machst) v 2)
      (encI32Byte (FileEndian.fromMachst h.machst) v 3)
      (by omega)
    rw [w0, w1, w2, w3]
    exact toI32_decodeWord_encI32Byte _ v hv1 hv2

set_option maxRecDepth 10000 in
/-- C8 witness: both get/set round-trips at the default record. -/
theorem c8_witness :
    ((Header.new.set_exttyp 77).exttyp = 77)
      ∧ ((Header.new.set_nversion 77).nversion = 77) :=
  ⟨(c8_reserved_subfields Header.new 77 (by decide) (by decide) (by decide)).1,
   (c8_reserved_subfields Header.new 77 (by decide) (by decide) (by decide)).2.1⟩

/-! ## Claim C9 (spec-modelled `swap_endian`) -/

theorem bswap32_lt (n : Nat) : bswap32 n < 4294967296 := by
  unfold bswap32
  omega

theorem bswap32_digits (d0 d1 d2 d3 : Nat) (h0 : d0 < 256) (h1 : d1 < 256)
    (h2 : d2 < 256) (h3 : d3 < 256) :
    bswap32 (d0 + 256 * d1 + 65536 * d2 + 16777216 * d3)
      = d3 + 256 * d2 + 65536 * d1 + 16777216 * d0 := by
  unfold bswap32
  omega

theorem bswap32_bswap32 (n : Nat) (hn : n < 4294967296) :
    bswap32 (bswap32 n) = n := by
  have hd : n = n % 256 + 256 * (n / 256 % 256) + 65536 * (n / 65536 % 256)
      + 16777216 * (n / 16777216 % 256) := by omega
  rw [hd, bswap32_digits _ _ _ _ (by omega) (by omega) (by omega) (by omega),
    bswap32_digits _ _ _ _ (by omega) (by omega) (by omega) (by omega)]

theorem i32Bits_toI32 (n : Nat) (hn : n < 4294967296) :
    i32Bits (toI32 n) = n := by
  unfold i32Bits toI32
  split <;> omega

theorem swapI32_swapI32 (x : Int) (h1 : -2147483648 ≤ x)
    (h2 : x < 2147483648) : swapI32 (swapI32 x) = x := by
  unfold swapI32
  rw [i32Bits_toI32 _ (bswap32_lt _),
    bswap32_bswap32 _ (by unfold i32Bits; omega)]
  unfold toI32 i32Bits
  split <;> omega

/-- C9 (spec-modelled): the byte-order flip is an involution — applying
`swap_endian` twice restores every field of every in-range record,
in particular every numeric field and the two packed reserved-region
sub-fields. -/
theorem c9_swap_endian_involution (h : Header) (hwf : h.WF) :
    h.swap_endian.swap_endian = h := by
  obtain ⟨hnx1, hnx2, hny1, hny2, hnz1, hnz2, hmo1, hmo2, hxs1, hxs2, hys1, hys2,
    hzs1, hzs2, hmx1, hmx2, hmy1, hmy2, hmz1, hmz2, hxl, hyl, hzl, hal, hbe, hga,
    hmc1, hmc2, hmr1, hmr2, hms1, hms2, hdm1, hdm2, hdm3, hsp1, hsp2, hsy1, hsy2,
    hex, hor, horb, hmap, hmach, hrms, hnl1, hnl2, hlab⟩ := hwf
  simp only [Header.swap_endian]
  apply Header.ext
  case nx => exact swapI32_swapI32 _ hnx1 hnx2
  case ny => exact swapI32_swapI32 _ hny1 hny2
  case nz => exact swapI32_swapI32 _ hnz1 hnz2
  case mode => exact swapI32_swapI32 _ hmo1 hmo2
  case nxstart => exact swapI32_swapI32 _ hxs1 hxs2
  case nystart => exact swapI32_swapI32 _ hys1 hys2
  case nzstart => exact swapI32_swapI32 _ hzs1 hzs2
  case mx => exact swapI32_swapI32 _ hmx1 hmx2
  case my => exact swapI32_swapI32 _ hmy1 hmy2
  case mz => exact swapI32_swapI32 _ hmz1 hmz2
  case xlen => exact bswap32_bswap32 _ hxl
  case ylen => exact bswap32_bswap32 _ hyl
  case zlen => exact bswap32_bswap32 _ hzl
  case alpha => exact bswap32_bswap32 _ hal
  case beta => exact bswap32_bswap32 _ hbe
  case gamma => exact bswap32_bswap32 _ hga
  case mapc => exact swapI32_swapI32 _ hmc1 hmc2
  case mapr => exact swapI32_swapI32 _ hmr1 hmr2
  case maps => exact swapI32_swapI32 _ hms1 hms2
  case dmin => exact bswap32_bswap32 _ hdm1
  case dmax => exact bswap32_bswap32 _ hdm2
  case dmean => exact bswap32_bswap32 _ hdm3
  case ispg => exact swapI32_swapI32 _ hsp1 hsp2
  case nsymbt => exact swapI32_swapI32 _ hsy1 hsy2
  case extra =>
    have hA : (h.extra.take 8).length = 8 := by
      simp [List.length_take]
      omega
    have hT : (h.extra.take 8
        ++ [h.extra.getD 11 0, h.extra.getD 10 0, h.extra.getD 9 0,
            h.extra.getD 8 0, h.extra.getD 15 0, h.extra.getD 14 0,
            h.extra.getD 13 0, h.extra.getD 12 0]
        ++ h.extra.drop 16).take 8 = h.extra.take 8 := by
      rw [List.append_assoc]
      exact List.take_left' hA
    have hD : (h.extra.take 8
        ++ [h.extra.getD 11 0, h.extra.getD 10 0, h.extra.getD 9 0,
            h.extra.getD 8 0, h.extra.getD 15 0, h.extra.getD 14 0,
            h.extra.getD 13 0, h.extra.getD 12 0]
        ++ h.extra.drop 16).drop 16 = h.extra.drop 16 :=
      List.drop_left' (by simp [hA])
    obtain ⟨w0, w1, w2, w3, w4, w5, w6, w7⟩ := getD_write8_at8 h.extra
      (h.extra.getD 11 0) (h.extra.getD 10 0) (h.extra.getD 9 0)
      (h.extra.getD 8 0) (h.extra.getD 15 0) (h.extra.getD 14 0)
      (h.extra.getD 13 0) (h.extra.getD 12 0) (by omega)
    rw [hT, hD, w0, w1, w2, w3, w4, w5, w6, w7]
    exact splice_8_16 h.extra (by omega)
  case origin =>
    obtain ⟨a, b, c, hor3⟩ := List.length_eq_three.mp hor
    have ha : a < 4294967296 := horb a (by rw [hor3]; simp)
    have hb : b < 4294967296 := horb b (by rw [hor3]; simp)
    have hc : c < 4294967296 := horb c (by rw [hor3]; simp)
    rw [hor3]
    simp [List.getD]
    exact ⟨bswap32_bswap32 a ha, bswap32_bswap32 b hb, bswap32_bswap32 c hc⟩
  case map => rfl
  case machst => rfl
  case rms => exact bswap32_bswap32 _ hrms
  case nlabl => exact swapI32_swapI32 _ hnl1 hnl2
  case label => rfl

set_option maxRecDepth 10000 in
/-- C9 witness: the involution at a concrete valid record. -/
theorem c9_witness : hdrLE.swap_endian.swap_endian = hdrLE :=
  c9_swap_endian_involution hdrLE (by decide)

end Mrc
